import Mathlib

/-
  Verification of the transcode-video operation (src/src/api.ts).

  The handler is embedded shallowly: strings are lists of characters
  (`Str`), the filesystem visible to the operation (the output
  directory) is an association list from file name to content, and
  every interaction with the outside world (ffprobe, ffmpeg, the
  Directus files/folders services, file deletion) is mediated by a
  `World` of oracle results.  The handler itself is a pure function
  from input, environment and world to an `Outcome` (thrown
  exception, typed error payload, or success record) together with a
  trace of the side effects it performed, mirroring the control flow
  of the TypeScript source statement by statement.

  Not modelled (irrelevant to the properties proved here): logger
  calls, the exact text interpolated into some thrown error messages,
  the UUID-string form of the `file` input (the claims concern the
  object form and the missing case), the ffmpeg command strings
  (threads/nice only alter the command passed to the encoder oracle),
  and the deletion of the temporary downloaded source file (it lives
  under a name outside the quality-file namespace).
-/

set_option maxHeartbeats 2000000
set_option maxRecDepth 100000

namespace Transcode

/-- Strings are modelled as lists of characters so that every string
operation used by the handler can be given a small, fully
inspectable implementation matching the JavaScript semantics. -/
abbrev Str := List Char

/-- Conversion from a Lean string literal. -/
def lit (s : String) : Str := s.data

/-- Whitespace as recognised by JavaScript trimming on the content
this operation handles. -/
def isWs (c : Char) : Bool :=
  c = ' ' || c = '\t' || c = '\n' || c = '\r' || c = '\x0b' || c = '\x0c'

/-- Does `s` start with `p`?  (JS `String.prototype.startsWith`.) -/
def startsWithS : Str → Str → Bool
  | [], _ => true
  | _ :: _, [] => false
  | p :: ps, c :: cs => (p = c) && startsWithS ps cs

/-- Does `s` end with `p`?  (JS `String.prototype.endsWith`.) -/
def endsWithS (p s : Str) : Bool := startsWithS p.reverse s.reverse

/-- JS `String.prototype.trim`. -/
def trimS (s : Str) : Str := ((s.dropWhile isWs).reverse.dropWhile isWs).reverse

/-- JS `String.prototype.split` with a one-character separator. -/
def splitOnCharS (sep : Char) : Str → List Str
  | [] => [[]]
  | c :: rest =>
    match splitOnCharS sep rest with
    | [] => [[c]]
    | h :: t => if c = sep then [] :: h :: t else (c :: h) :: t

/-- Join lines with a newline (inverse of splitting on a newline). -/
def joinNl : List Str → Str
  | [] => []
  | [l] => l
  | l :: ls => l ++ '\n' :: joinNl ls

/-- JS `content.split('\n')`. -/
def splitNl (s : Str) : List Str := splitOnCharS '\n' s

/-- Does the string contain `pat` as a substring?
(JS `String.prototype.includes`.) -/
def containsSub (pat : Str) : Str → Bool
  | [] => pat.isEmpty
  | c :: rest => startsWithS pat (c :: rest) || containsSub pat rest

/-- Node `path.basename`: the last non-empty slash-separated
segment, or the empty string when there is none. -/
def basenameS (s : Str) : Str :=
  ((splitOnCharS '/' s).filter (fun seg => seg ≠ [])).getLastD []

/-- JS `s.split(sep)[0]`: the prefix of `s` before the first
occurrence of `sep`. -/
def headSeg (sep : Char) (s : Str) : Str := s.takeWhile (fun c => c ≠ sep)

/-- Value of a string of decimal digits. -/
def digitsVal (ds : Str) : Nat := ds.foldl (fun a c => a * 10 + (c.toNat - 48)) 0

/-- JS `parseInt(s, 10)`: skip leading whitespace, optional sign,
longest run of digits; `none` models NaN. -/
def jsParseInt (s : Str) : Option Int :=
  let t := s.dropWhile isWs
  let p : Int × Str :=
    match t with
    | '-' :: r => (-1, r)
    | '+' :: r => (1, r)
    | _ => (1, t)
  let ds := p.2.takeWhile Char.isDigit
  if ds.isEmpty then none else some (p.1 * (digitsVal ds : Int))

/-- JS `q.replace(/p$/i, '')`: drop one trailing `p` or `P`. -/
def stripP (s : Str) : Str :=
  match s.getLast? with
  | some 'p' => s.dropLast
  | some 'P' => s.dropLast
  | _ => s

/-- Hexadecimal digit, either case (character class `[0-9a-f]` with
the `i` flag). -/
def isHexDig (c : Char) : Bool :=
  c.isDigit || ('a' ≤ c && c ≤ 'f') || ('A' ≤ c && c ≤ 'F')

/-- Character-by-character check of the UUID layout starting at
index `i`: dashes at positions 8, 13, 18, 23, hex digits elsewhere. -/
def uuidChars : Nat → Str → Bool
  | _, [] => true
  | i, c :: rest =>
    (if i = 8 || i = 13 || i = 18 || i = 23 then c = '-' else isHexDig c)
      && uuidChars (i + 1) rest

/-- The source's `uuidPattern` regular expression
`^[0-9a-f]\x7b8\x7d-...$/i` as a total test. -/
def uuidShape (s : Str) : Bool := s.length = 36 && uuidChars 0 s

/- ------------------------------------------------------------------
   Quality catalog and the quality planner (src/src/api.ts 997-1063).
   ------------------------------------------------------------------ -/

/-- The ids of the static quality catalog (`getQualityOptionsRaw`);
the ffmpeg option strings attached to each id only feed the encoder
oracle and are not reproduced. -/
def qualityCatalog : List Nat := [240, 480, 720, 1080, 2160]

/-- The `qualityHeights` map from quality id to target height. -/
def qualityHeights : List (Nat × Nat) :=
  [(240, 240), (480, 480), (720, 720), (1080, 1080), (2160, 2160)]

/-- The default quality selection (both the parameter default and the
fallback used when parsing fails). -/
def defaultQualityTokens : List Str :=
  [lit "240p", lit "480p", lit "720p", lit "1080p", lit "2160p"]

/-- The four shapes the `qualities` input can take after the
array/string/JSON.parse discrimination at lines 1002-1014. -/
inductive QualitiesIn where
  | missing
  | arr (l : List Str)
  | strOk (l : List Str)
  | strBad
deriving DecidableEq

/-- The `selectedQualities` list of tokens: the given array, a
successfully parsed JSON string, or the default on a falsy input or
a parse failure. -/
def selectedTokens : QualitiesIn → List Str
  | .missing => defaultQualityTokens
  | .arr l => l
  | .strOk l => l
  | .strBad => defaultQualityTokens

/-- `selectedQualitiesNumbers`: strip the trailing `p`, parse to an
integer, and drop NaN results (lines 1018-1027). -/
def selectedQualitiesNumbers (toks : List Str) : List Int :=
  toks.filterMap (fun q => jsParseInt (stripP q))

/-- The body of the no-upscaling filter (lines 1043-1050): a quality
is dropped exactly when its looked-up target height is truthy and
strictly exceeds the probed source height. -/
def noUpscaleKeep (sourceHeight : Nat) (qid : Nat) : Bool :=
  match qualityHeights.lookup qid with
  | some th => !((th != 0) && (decide (th > sourceHeight)))
  | none => true

/-- The planned quality ladder `qualitiesRaw` (ids only): the catalog
filtered by user selection, then by the no-upscaling filter, in
catalog order (lines 1039-1050). -/
def planQualities (selNums : List Int) (sourceHeight : Nat) : List Nat :=
  (qualityCatalog.filter (fun q => selNums.contains (Int.ofNat q))).filter
    (noUpscaleKeep sourceHeight)

/- ------------------------------------------------------------------
   Data model: filesystem, effects, world of oracle results.
   ------------------------------------------------------------------ -/

/-- The output directory as seen by the operation: an association of
file name to file content.  `assocPut` mirrors both `writeFileSync`
(overwrite or create) and JS object property assignment, which is
also how `fileIdMap` behaves. -/
abbrev FS := List (Str × Str)

def assocGet : FS → Str → Option Str
  | [], _ => none
  | p :: rest, k => if p.1 = k then some p.2 else assocGet rest k

def assocPut : FS → Str → Str → FS
  | [], k, v => [(k, v)]
  | p :: rest, k, v => if p.1 = k then (k, v) :: rest else p :: assocPut rest k v

def fsExists (fs : FS) (name : Str) : Bool := (assocGet fs name).isSome

def fsDelete (fs : FS) (name : Str) : FS := fs.filter (fun e => e.1 ≠ name)

def fsNames (fs : FS) : List Str := fs.map Prod.fst

def fsWriteAll (fs : FS) (files : List (Str × Str)) : FS :=
  files.foldl (fun a e => assocPut a e.1 e.2) fs

/-- JS object read `map[k]` used in a boolean position: an absent key
and an empty-string value are both falsy. -/
def jsGet (map : FS) (k : Str) : Option Str :=
  match assocGet map k with
  | some v => if v.isEmpty then none else some v
  | none => none

/-- The externally visible side effects the handler performs, in
order. -/
inductive Effect where
  | download
  | ffmpegCheck
  | pixFmtProbe
  | geometryProbe
  | encode (q : Nat)
  | folderEnsure
  | thumbQuery
  | thumbExtract
  | imageProbe
  | upload (name : Str)
  | fileDelete (name : Str)
deriving DecidableEq

/-- Mutable state threaded through the handler: the output
directory, the effect trace, `fileIdMap` and `uploadedFiles`. -/
structure PState where
  fs : FS
  trace : List Effect
  fileIdMap : FS
  uploadedFiles : List (Str × Str)
deriving DecidableEq

/-- `VideoMetadata` as produced by `getVideoMetadata`. -/
structure VideoMetadata where
  width : Nat
  height : Nat
  isVertical : Bool
  duration : Nat
deriving DecidableEq

/-- The success payload of `OperationResult` (the fields the claims
observe). -/
structure SuccessData where
  masterId : Option Str
  masterFilename : Str
  availableQualities : List Nat
  width : Nat
  height : Nat
  isVertical : Bool
  duration : Nat
  thumbnail : Option Str
  files : List (Str × Str)
deriving DecidableEq

/-- How a run ends: a thrown (rejected) exception, a typed
`\x7b error \x7d` payload, or the success record. -/
inductive Outcome where
  | thrown (msg : Str)
  | errorResult (msg : Str)
  | success (d : SuccessData)
deriving DecidableEq

/-- Results of every interaction with the world outside the handler:
probing, encoding, the Directus store, and file deletion. -/
structure World where
  initialFs : FS
  sourceExists : Bool
  downloadOk : Except Str Unit
  ffmpegOk : Bool
  pixFmt10 : Bool
  probe : Except Str VideoMetadata
  encodeRes : Nat → Except Str (List (Str × Str))
  folderRes : Except Str Str
  thumbQuery : Option Str
  thumbWrite : Option Str
  thumbExecOk : Bool
  uploadRes : Str → Except Str Str
  deleteOk : Str → Bool

/-- The configuration surface: storage locations, and the
`STORAGE_<LOC>_DRIVER` / `STORAGE_<LOC>_ROOT` lookups keyed directly
by location name. -/
structure Env where
  storageLocations : List Str
  driver : Str → Option Str
  root : Str → Option Str

/-- The input file object (`File`). -/
structure FileObj where
  filename_disk : Str
  storage : Str
deriving DecidableEq

/-- The `storage_adapter` selection together with `target_storage`. -/
inductive StorageSel where
  | default
  | source
  | custom (t : Option Str)
deriving DecidableEq

/-- The operation input (object form of `file`; a `none` models a
missing/falsy required parameter). -/
structure Input where
  file : Option FileObj
  folder_id : Option Str
  useFilenameDisk : Bool
  qualities : QualitiesIn
  storageSel : StorageSel
deriving DecidableEq

/- ------------------------------------------------------------------
   Storage resolution (lines 148-212).
   ------------------------------------------------------------------ -/

/-- `getStorageDriver`: configured driver, defaulting to local. -/
def getStorageDriver (env : Env) (location : Str) : Str :=
  match env.driver location with
  | some d => d
  | none => lit "local"

/-- `validateStorageExists`: the driver key is configured. -/
def validateStorageExists (env : Env) (location : Str) : Bool :=
  (env.driver location).isSome

/-- `defaultStorageAdapter`: first configured location, else local. -/
def defaultStorageAdapter (env : Env) : Str :=
  env.storageLocations.headD (lit "local")

/-- Target storage selection (lines 190-206); an unknown custom
location throws (message text abbreviated). -/
def resolveTargetAdapter (inp : Input) (env : Env) (fo : FileObj) : Except Str Str :=
  match inp.storageSel with
  | .source => .ok (if fo.storage.isEmpty then defaultStorageAdapter env else fo.storage)
  | .custom (some t) =>
      if validateStorageExists env t then .ok t
      else .error (lit "Custom storage location does not exist: " ++ t)
  | .custom none => .ok (defaultStorageAdapter env)
  | .default => .ok (defaultStorageAdapter env)

/- ------------------------------------------------------------------
   File names and directory scans.
   ------------------------------------------------------------------ -/

def playlistName (fname : Str) (q : Nat) : Str :=
  fname ++ lit "_" ++ lit (toString q) ++ lit "p.m3u8"

def masterName (fname : Str) : Str := fname ++ lit "_master.m3u8"

def thumbNameOf (fname : Str) : Str := fname ++ lit "_thumb.jpg"

/-- `readFiles`: directory listing filtered to names starting with
the source base name (lines 250-253). -/
def readFiles (fs : FS) (fname : Str) : List Str :=
  (fsNames fs).filter (fun n => startsWithS fname n)

/-- The five quality-suffix markers of the idempotency guard. -/
def qualityMarkers : List Str :=
  [lit "_240p", lit "_480p", lit "_720p", lit "_1080p", lit "_2160p"]

/-- `hasFiles` (line 1067): some listed file contains a marker. -/
def hasTranscodedFiles (files : List Str) : Bool :=
  files.any (fun f => qualityMarkers.any (fun m => containsSub m f))

/- ------------------------------------------------------------------
   Master playlist builder (lines 1087-1120).
   ------------------------------------------------------------------ -/

/-- One `switch` case of the master playlist builder: the fixed
bandwidth/resolution directive and the quality manifest reference;
ids outside the catalog push nothing. -/
def streamInfBlock (fname : Str) (q : Nat) : List Str :=
  match q with
  | 240 => [lit "#EXT-X-STREAM-INF:BANDWIDTH=400000,RESOLUTION=426x240",
            fname ++ lit "_240p.m3u8"]
  | 480 => [lit "#EXT-X-STREAM-INF:BANDWIDTH=1400000,RESOLUTION=854x480",
            fname ++ lit "_480p.m3u8"]
  | 720 => [lit "#EXT-X-STREAM-INF:BANDWIDTH=2800000,RESOLUTION=1280x720",
            fname ++ lit "_720p.m3u8"]
  | 1080 => [lit "#EXT-X-STREAM-INF:BANDWIDTH=5000000,RESOLUTION=1920x1080",
             fname ++ lit "_1080p.m3u8"]
  | 2160 => [lit "#EXT-X-STREAM-INF:BANDWIDTH=20000000,RESOLUTION=3840x2160",
             fname ++ lit "_2160p.m3u8"]
  | _ => []

/-- The quality manifest exists and is non-empty (line 1093). -/
def qualityFileValid (fs : FS) (fname : Str) (q : Nat) : Bool :=
  match assocGet fs (playlistName fname q) with
  | some c => !c.isEmpty
  | none => false

/-- `m3u8Content`: the fixed two-line header, then one block per
planned quality whose manifest is valid, in plan order. -/
def m3u8ContentLines (fs : FS) (fname : Str) (plan : List Nat) : List Str :=
  plan.foldl
    (fun acc q => if qualityFileValid fs fname q then acc ++ streamInfBlock fname q else acc)
    [lit "#EXTM3U", lit "#EXT-X-VERSION:3"]

/- ------------------------------------------------------------------
   Playlist rewriter (`rebuildPlaylist`, lines 564-639) and the
   inline master rewrite (lines 1349-1390).
   ------------------------------------------------------------------ -/

/-- The four lookup attempts of line 608. -/
def lookupFileId (map : FS) (filename bn : Str) : Option Str :=
  match jsGet map filename with
  | some v => some v
  | none =>
    match jsGet map bn with
    | some v => some v
    | none =>
      match jsGet map (trimS filename) with
      | some v => some v
      | none => jsGet map (trimS bn)

/-- The token a reference line is resolved by: trim, strip a leading
`/assets/` prefix, trim again (lines 591-597). -/
def tokenOf (line : Str) : Str :=
  let f0 := trimS line
  let f1 := if startsWithS (lit "/assets/") f0 then f0.drop 8 else f0
  trimS f1

/-- The per-line body of `rebuildPlaylist` (lines 585-635). -/
def rewriteLine (map : FS) (useFilenameDisk : Bool) (line : Str) : Str :=
  if startsWithS (lit "#") line || (trimS line).isEmpty then line
  else
    let filename := tokenOf line
    if uuidShape filename && !useFilenameDisk then filename
    else
      let bn := basenameS filename
      match lookupFileId map filename bn with
      | some fid => if useFilenameDisk then filename else fid
      | none => line

def rebuildPlaylistLines (map : FS) (useFilenameDisk : Bool) (lines : List Str) : List Str :=
  lines.map (rewriteLine map useFilenameDisk)

/-- The content transformation of `rebuildPlaylist`: split on
newlines, rewrite each line, join with newlines. -/
def rebuildPlaylistContent (map : FS) (useFilenameDisk : Bool) (content : Str) : Str :=
  joinNl (rebuildPlaylistLines map useFilenameDisk (splitNl content))

/-- `rebuildPlaylist` with its leading file checks (lines 565-577):
a missing file, an empty file, or whitespace-only content throws. -/
def rebuildPlaylist (fs : FS) (name : Str) (map : FS) (useFilenameDisk : Bool) :
    Except Str Str :=
  match assocGet fs name with
  | none => .error (lit "Playlist file does not exist: " ++ name)
  | some content =>
    if content.isEmpty then .error (lit "Playlist file is empty: " ++ name)
    else if (trimS content).isEmpty then
      .error (lit "Playlist file content is empty: " ++ name)
    else .ok (rebuildPlaylistContent map useFilenameDisk content)

/-- The per-line body of the inline master rewrite (lines 1355-1388):
no re-trim after stripping the asset prefix, and only two lookups. -/
def rewriteMasterLine (map : FS) (useFilenameDisk : Bool) (line : Str) : Str :=
  if startsWithS (lit "#") line || (trimS line).isEmpty then line
  else
    let f0 := trimS line
    let playlistFilename := if startsWithS (lit "/assets/") f0 then f0.drop 8 else f0
    if uuidShape playlistFilename && !useFilenameDisk then playlistFilename
    else
      let bn := basenameS playlistFilename
      match (match jsGet map playlistFilename with
             | some v => some v
             | none => jsGet map bn) with
      | some pid => if useFilenameDisk then playlistFilename else pid
      | none => line

def rewriteMasterContent (map : FS) (useFilenameDisk : Bool) (content : Str) : Str :=
  joinNl ((splitNl content).map (rewriteMasterLine map useFilenameDisk))

/- ------------------------------------------------------------------
   The handler, stage by stage, in source order.
   ------------------------------------------------------------------ -/

def msgInputFileMissing : Str := lit "Input file missing"
def msgFolderIdRequired : Str := lit "folder_id parameter is required"
def msgFilenameDiskMissing : Str := lit "Input file missing filename_disk"
def msgFfmpegMissing : Str :=
  lit "FFmpeg is not installed or not found in PATH. Please install ffmpeg."
def msgNoQualityLevels : Str := lit "No quality levels selected for transcoding"
def msgNoValidQuality : Str :=
  lit "No valid quality playlists found, cannot create master playlist"

/-- The input validation prelude (lines 110-143): missing `file`,
missing `folder_id`, and a file object without `filename_disk` each
throw, in that order, before anything else runs. -/
def validateInput (inp : Input) : Except Str FileObj :=
  match inp.file with
  | none => .error msgInputFileMissing
  | some fo =>
    match inp.folder_id with
    | none => .error msgFolderIdRequired
    | some _ =>
      if fo.filename_disk.isEmpty then .error msgFilenameDiskMissing
      else .ok fo

/-- Initial mutable state of a run. -/
def initState (w : World) : PState :=
  { fs := w.initialFs, trace := [], fileIdMap := [], uploadedFiles := [] }

/-- `sourceMetadata` (lines 985-991): geometry probe result with the
catch substituting an effectively infinite resolution and duration
zero. -/
def fallbackMetadata : VideoMetadata :=
  { width := 99999, height := 99999, isVertical := false, duration := 0 }

def sourceMetadataOf (w : World) : VideoMetadata :=
  match w.probe with
  | .ok m => m
  | .error _ => fallbackMetadata

/-- One encoder invocation (`ffmpegRawSync`, lines 653-720): run the
encoder, add whatever files it produced, then verify the expected
quality manifest exists, is non-empty and holds the HLS header; any
failure rejects and aborts the run. -/
def encodeStep (w : World) (fname : Str) (q : Nat) (st : PState) :
    Except (Str × PState) PState :=
  let st1 := { st with trace := st.trace ++ [Effect.encode q] }
  match w.encodeRes q with
  | .error e =>
    .error (lit "FFmpeg transcoding failed for quality " ++ lit (toString q) ++
            lit "p: " ++ e, st1)
  | .ok files =>
    let st2 := { st1 with fs := fsWriteAll st1.fs files }
    match assocGet st2.fs (playlistName fname q) with
    | none => .error (lit "Playlist file was not created: " ++ playlistName fname q, st2)
    | some c =>
      if c.isEmpty then
        .error (lit "Playlist file is empty: " ++ playlistName fname q, st2)
      else if !containsSub (lit "#EXTM3U") c then
        .error (lit "Playlist file does not contain valid HLS content: " ++
                playlistName fname q, st2)
      else .ok st2

/-- The sequential per-quality encoding loop (lines 1072-1081): the
first failure is rethrown and aborts the whole operation. -/
def encodeLoop (w : World) (fname : Str) :
    List Nat → PState → Except (Str × PState) PState
  | [], st => .ok st
  | q :: rest, st =>
    match encodeStep w fname q st with
    | .error e => .error e
    | .ok st' => encodeLoop w fname rest st'

/-- The transcode step with its idempotency guard (lines 1065-1085):
if any existing file matches, the whole transcode is skipped. -/
def transcodeStage (w : World) (fname : Str) (plan : List Nat) (st : PState) :
    Except (Str × PState) PState :=
  if hasTranscodedFiles (readFiles st.fs fname) then .ok st
  else encodeLoop w fname plan st

/-- The thumbnail step (lines 1144-1235): reuse an id found in the
store; otherwise attempt extraction (which may leave a file on disk
whether or not it reports success), and upload whatever non-empty
thumbnail file exists, swallowing upload errors.  Returns the
resulting `thumbnailId`. -/
def thumbStage (w : World) (fname : Str) (st : PState) : PState × Option Str :=
  let st1 := { st with trace := st.trace ++ [Effect.thumbQuery] }
  let tn := thumbNameOf fname
  match w.thumbQuery with
  | some tid =>
    ({ st1 with fileIdMap := assocPut st1.fileIdMap (basenameS tn) tid,
                uploadedFiles := st1.uploadedFiles ++ [(basenameS tn, tid)] }, some tid)
  | none =>
    let st2 := { st1 with
                 trace := st1.trace ++ [Effect.thumbExtract],
                 fs := match w.thumbWrite with
                       | some c => assocPut st1.fs tn c
                       | none => st1.fs }
    match assocGet st2.fs tn with
    | none => (st2, none)
    | some c =>
      if c.isEmpty then (st2, none)
      else
        let st3 := { st2 with trace := st2.trace ++ [Effect.imageProbe, Effect.upload tn] }
        match w.uploadRes tn with
        | .error _ => (st3, none)
        | .ok tid =>
          ({ st3 with fileIdMap := assocPut st3.fileIdMap tn tid,
                      uploadedFiles := st3.uploadedFiles ++ [(tn, tid)] }, some tid)

/-- Segment collection (lines 1238-1264): read every planned quality
manifest, keep reference lines naming an on-disk `.ts` file starting
with the base name, deduplicated in insertion order. -/
def collectSegments (fs : FS) (fname : Str) (plan : List Nat) : List Str :=
  plan.foldl
    (fun acc q =>
      match assocGet fs (playlistName fname q) with
      | none => acc
      | some content =>
        (splitNl content).foldl
          (fun acc2 line =>
            let t := trimS line
            if !t.isEmpty && !startsWithS (lit "#") t then
              let seg := basenameS t
              if endsWithS (lit ".ts") seg && startsWithS fname seg && fsExists fs seg then
                if acc2.contains seg then acc2 else acc2 ++ [seg]
              else acc2
            else acc2)
          acc)
    []

/-- One segment upload (lines 1268-1282): a missing file or a store
failure is logged and skipped. -/
def uploadSegmentStep (w : World) (seg : Str) (st : PState) : PState :=
  if !fsExists st.fs seg then st
  else
    let st1 := { st with trace := st.trace ++ [Effect.upload seg] }
    match w.uploadRes seg with
    | .error _ => st1
    | .ok fid =>
      { st1 with fileIdMap := assocPut st1.fileIdMap seg fid,
                 uploadedFiles := st1.uploadedFiles ++ [(seg, fid)] }

def uploadSegments (w : World) (segs : List Str) (st : PState) : PState :=
  segs.foldl (fun s seg => uploadSegmentStep w seg s) st

/-- One quality manifest rebuild and upload (lines 1290-1322): a
missing or zero-size file is skipped; `rebuildPlaylist` may throw
(uncaught); an empty rebuild result is skipped; the upload failure is
caught and skipped. -/
def rebuildQualityStep (w : World) (useFilenameDisk : Bool) (fname : Str) (q : Nat)
    (st : PState) : Except (Str × PState) PState :=
  let pn := playlistName fname q
  match assocGet st.fs pn with
  | none => .ok st
  | some content =>
    if content.isEmpty then .ok st
    else
      match rebuildPlaylist st.fs pn st.fileIdMap useFilenameDisk with
      | .error e => .error (e, st)
      | .ok rebuilt =>
        if (trimS rebuilt).isEmpty then .ok st
        else
          let st1 := { st with fs := assocPut st.fs pn rebuilt, trace := st.trace ++ [Effect.upload pn] }
          match w.uploadRes pn with
          | .error _ => .ok st1
          | .ok fid =>
            .ok { st1 with fileIdMap := assocPut st1.fileIdMap pn fid,
                           uploadedFiles := st1.uploadedFiles ++ [(pn, fid)] }

def rebuildQualityLoop (w : World) (useFilenameDisk : Bool) (fname : Str) :
    List Nat → PState → Except (Str × PState) PState
  | [], st => .ok st
  | q :: rest, st =>
    match rebuildQualityStep w useFilenameDisk fname q st with
    | .error e => .error e
    | .ok st' => rebuildQualityLoop w useFilenameDisk fname rest st'

/-- The master rewrite and its registration (lines 1326-1402): the
re-read checks return typed errors; the upload failure is caught, so
a failed master registration leaves `masterId` null and the run
continues. -/
def masterStage (w : World) (useFilenameDisk : Bool) (fname : Str) (st : PState) :
    Except (Str × PState) (PState × Option Str) :=
  let mn := masterName fname
  match assocGet st.fs mn with
  | none => .error (lit "Master playlist file does not exist: " ++ mn, st)
  | some content =>
    if content.isEmpty then .error (lit "Master playlist file is empty: " ++ mn, st)
    else if (trimS content).isEmpty then
      .error (lit "Master playlist content is empty: " ++ mn, st)
    else
      let newContent := rewriteMasterContent st.fileIdMap useFilenameDisk content
      let st1 := { st with fs := assocPut st.fs mn newContent, trace := st.trace ++ [Effect.upload mn] }
      match w.uploadRes mn with
      | .error _ => .ok (st1, none)
      | .ok mid =>
        .ok ({ st1 with fileIdMap := assocPut st1.fileIdMap mn mid,
                        uploadedFiles := st1.uploadedFiles ++ [(mn, mid)] }, some mid)

/-- The cloud-target cleanup loop body (lines 1412-1424), applied to
a snapshot of the directory listing. -/
def cleanupLoop (w : World) : List Str → FS → FS
  | [], fs => fs
  | n :: rest, fs => cleanupLoop w rest (if w.deleteOk n then fsDelete fs n else fs)

/-- The post-publish cleanup (lines 1407-1430): when the target is
not local, delete every file starting with the base name except the
original source; failures are logged, never propagated. -/
def cleanupStage (w : World) (isLocalTarget : Bool) (fname fdisk : Str) (st : PState) :
    PState :=
  if isLocalTarget then st
  else
    let names := (readFiles st.fs fname).filter (fun n => n ≠ fdisk)
    { st with fs := cleanupLoop w names st.fs,
              trace := st.trace ++ names.map Effect.fileDelete }

/-- `availableQualities` (lines 1444-1451): the planned qualities
whose manifest still exists after cleanup. -/
def availableQualitiesOf (fs : FS) (fname : Str) (plan : List Nat) : List Nat :=
  plan.filter (fun q => fsExists fs (playlistName fname q))

/-- Cleanup and result assembly (lines 1407-1466); this tail of the
handler has no failure path. -/
def finishStage (w : World) (isLocalTarget : Bool) (fname fdisk : Str)
    (md : VideoMetadata) (plan : List Nat) (masterId thumbnailId : Option Str)
    (st : PState) : Outcome × List Effect :=
  let st1 := cleanupStage w isLocalTarget fname fdisk st
  let avail := availableQualitiesOf st1.fs fname plan
  (Outcome.success
    { masterId := masterId,
      masterFilename := masterName fname,
      availableQualities := avail,
      width := md.width, height := md.height, isVertical := md.isVertical,
      duration := md.duration,
      thumbnail := thumbnailId,
      files := st1.uploadedFiles }, st1.trace)

/-- Everything after the folder was secured: thumbnail, segment
uploads, quality manifest rewrites, master rewrite and registration,
cleanup, result. -/
def afterFolder (inp : Input) (w : World) (fo : FileObj) (fname : Str)
    (isLocalTarget : Bool) (md : VideoMetadata) (plan : List Nat) (st : PState) :
    Outcome × List Effect :=
  let r := thumbStage w fname st
  let segs := collectSegments r.1.fs fname plan
  let st2 := uploadSegments w segs r.1
  match rebuildQualityLoop w inp.useFilenameDisk fname plan st2 with
  | .error e => (Outcome.thrown e.1, e.2.trace)
  | .ok st3 =>
    match masterStage w inp.useFilenameDisk fname st3 with
    | .error e => (Outcome.errorResult e.1, e.2.trace)
    | .ok p =>
      finishStage w isLocalTarget fname fo.filename_disk md plan p.2 r.2 p.1

/-- Securing the target folder (`ensureFolder` at line 1141, whose
rejection is not caught and so aborts the run) followed by the
publish phase. -/
def folderAndPublish (inp : Input) (w : World) (fo : FileObj) (fname : Str)
    (isLocalTarget : Bool) (md : VideoMetadata) (plan : List Nat) (st : PState) :
    Outcome × List Effect :=
  let st1 := { st with trace := st.trace ++ [Effect.folderEnsure] }
  match w.folderRes with
  | .error e => (Outcome.thrown e, st1.trace)
  | .ok _ => afterFolder inp w fo fname isLocalTarget md plan st1

/-- The planning step and everything after it (lines 997-1466):
compute the plan, bail out with the typed empty-plan error, run the
guarded transcode, build and verify the master playlist, then secure
the folder and publish. -/
def afterProbe (inp : Input) (w : World) (fo : FileObj) (fname : Str)
    (isLocalTarget : Bool) (md : VideoMetadata) (st : PState) :
    Outcome × List Effect :=
  let selNums := selectedQualitiesNumbers (selectedTokens inp.qualities)
  let plan := planQualities selNums md.height
  if plan.isEmpty then (Outcome.errorResult msgNoQualityLevels, st.trace)
  else
    match transcodeStage w fname plan st with
    | .error e => (Outcome.thrown e.1, e.2.trace)
    | .ok st1 =>
      let mlines := m3u8ContentLines st1.fs fname plan
      if mlines.length ≤ 2 then (Outcome.errorResult msgNoValidQuality, st1.trace)
      else
        let st2 := { st1 with fs := assocPut st1.fs (masterName fname) (joinNl mlines) }
        match assocGet st2.fs (masterName fname) with
        | none =>
          (Outcome.errorResult (lit "Failed to create master playlist: " ++
            masterName fname), st2.trace)
        | some mc =>
          if mc.isEmpty then
            (Outcome.errorResult (lit "Failed to create master playlist: " ++
              masterName fname), st2.trace)
          else folderAndPublish inp w fo fname isLocalTarget md plan st2

/-- Source acquisition (lines 743-906): a local source needs its
storage root configured and the file on disk; a remote source is
downloaded (one `download` effect); every failure is a typed error. -/
def acquireSource (env : Env) (w : World) (fo : FileObj) :
    Except (Outcome × List Effect) PState :=
  let st0 := initState w
  if getStorageDriver env fo.storage = lit "local" then
    match env.root fo.storage with
    | none =>
      .error (Outcome.errorResult (lit "No storage found for location <" ++
        fo.storage ++ lit ">"), st0.trace)
    | some _ =>
      if !w.sourceExists then
        .error (Outcome.errorResult (lit "Source file not found: " ++
          fo.filename_disk), st0.trace)
      else .ok st0
  else
    let st1 := { st0 with trace := st0.trace ++ [Effect.download] }
    match w.downloadOk with
    | .error e =>
      .error (Outcome.errorResult (lit "Failed to download source file from cloud storage: " ++ e),
        st1.trace)
    | .ok _ => .ok st1

/-- The output-directory determination (lines 908-940): a local
target must have its storage root configured. -/
def outputDirOk (env : Env) (tgt : Str) : Bool :=
  if getStorageDriver env tgt = lit "local" then (env.root tgt).isSome else true

/-- Source acquisition, output directory checks, the ffmpeg
availability check (whose failure is rethrown), bit-depth and
geometry probes (lines 743-994), then the rest of the pipeline.  The
temporary downloaded source is not tracked beyond the download
result. -/
def runTargeted (inp : Input) (env : Env) (w : World) (fo : FileObj) (fname : Str)
    (tgt : Str) : Outcome × List Effect :=
  let isLocalTarget := getStorageDriver env tgt = lit "local"
  match acquireSource env w fo with
  | .error o => o
  | .ok stA =>
    if !outputDirOk env tgt then
      (Outcome.errorResult (lit "No storage found for target location <" ++ tgt ++ lit ">"),
        stA.trace)
    else
      let stB := { stA with trace := stA.trace ++ [Effect.ffmpegCheck] }
      if !w.ffmpegOk then (Outcome.thrown msgFfmpegMissing, stB.trace)
      else
        let stC := { stB with trace := stB.trace ++ [Effect.pixFmtProbe, Effect.geometryProbe] }
        afterProbe inp w fo fname isLocalTarget (sourceMetadataOf w) stC

/-- The whole handler: validation (throws), target storage selection
(throws on an unknown custom location), then the pipeline. -/
def runHandler (inp : Input) (env : Env) (w : World) : Outcome × List Effect :=
  match validateInput inp with
  | .error m => (Outcome.thrown m, [])
  | .ok fo =>
    let fname := headSeg '.' fo.filename_disk
    match resolveTargetAdapter inp env fo with
    | .error m => (Outcome.thrown m, [])
    | .ok tgt => runTargeted inp env w fo fname tgt

/- ------------------------------------------------------------------
   Observation helpers.
   ------------------------------------------------------------------ -/

/-- The encoder invocations recorded in a trace, in order. -/
def encodesOf (tr : List Effect) : List Nat :=
  tr.filterMap (fun e => match e with | .encode q => some q | _ => none)

def Outcome.isSuccess : Outcome → Bool
  | .success _ => true
  | _ => false

def Outcome.masterIdOf : Outcome → Option (Option Str)
  | .success d => some d.masterId
  | _ => none

def Outcome.thumbOf : Outcome → Option (Option Str)
  | .success d => some d.thumbnail
  | _ => none

def Outcome.availOf : Outcome → Option (List Nat)
  | .success d => some d.availableQualities
  | _ => none

def Outcome.filesOf : Outcome → Option (List (Str × Str))
  | .success d => some d.files
  | _ => none

/-- Number of `STREAM-INF` directive lines in a manifest. -/
def countStreamInf (lines : List Str) : Nat :=
  lines.countP (fun l => startsWithS (lit "#EXT-X-STREAM-INF") l)

/- ------------------------------------------------------------------
   Concrete scenarios used by witnesses and counterexamples.
   ------------------------------------------------------------------ -/

def demoSegName (q : Nat) : Str := lit "vid_" ++ lit (toString q) ++ lit "p_000.ts"

def demoId : Str := lit "aaaaaaaa-bbbb-cccc-dddd-eeeeeeeeeeee"

/-- A single local storage location named `local`. -/
def demoEnv : Env :=
  { storageLocations := [lit "local"],
    driver := fun l => if l = lit "local" then some (lit "local") else none,
    root := fun l => if l = lit "local" then some (lit "uploads") else none }

/-- A remote (s3) default target plus a local source location. -/
def demoRemoteEnv : Env :=
  { storageLocations := [lit "cloud"],
    driver := fun l =>
      if l = lit "cloud" then some (lit "s3")
      else if l = lit "src" then some (lit "local") else none,
    root := fun l => if l = lit "src" then some (lit "uploads") else none }

/-- A world in which everything succeeds: the source `vid.mp4` is on
disk, probing reports 1920x1080, every encoder run produces a valid
quality manifest plus one segment, and the store accepts every
registration. -/
def demoWorld : World :=
  { initialFs := [(lit "vid.mp4", lit "SRC")],
    sourceExists := true,
    downloadOk := .ok (),
    ffmpegOk := true,
    pixFmt10 := false,
    probe := .ok { width := 1920, height := 1080, isVertical := false, duration := 5000 },
    encodeRes := fun q => .ok
      [(playlistName (lit "vid") q, lit "#EXTM3U" ++ ['\n'] ++ demoSegName q ++ ['\n']),
       (demoSegName q, lit "TS")],
    folderRes := .ok (lit "fid"),
    thumbQuery := none,
    thumbWrite := some (lit "JPG"),
    thumbExecOk := true,
    uploadRes := fun _ => .ok demoId,
    deleteOk := fun _ => true }

def demoInput : Input :=
  { file := some { filename_disk := lit "vid.mp4", storage := lit "local" },
    folder_id := some (lit "rootfolder"),
    useFilenameDisk := false,
    qualities := .missing,
    storageSel := .default }

/-- The same input pointed at the remote-target environment. -/
def demoRemoteInput : Input :=
  { demoInput with file := some { filename_disk := lit "vid.mp4", storage := lit "src" } }

/-- Every store registration fails. -/
def demoWorldUploadsFail : World :=
  { demoWorld with uploadRes := fun _ => .error (lit "store down") }

/-- Thumbnail extraction reports failure but leaves a non-empty file
on disk. -/
def demoWorldThumbOrphan : World := { demoWorld with thumbExecOk := false }

/-- Thumbnail extraction fails and leaves nothing on disk. -/
def demoWorldNoThumb : World :=
  { demoWorld with thumbExecOk := false, thumbWrite := none }

/-- The geometry probe fails. -/
def demoWorldProbeFail : World :=
  { demoWorld with probe := .error (lit "probe failed") }

/-- A 480p source. -/
def demoWorld480 : World :=
  { demoWorld with
    probe := .ok { width := 640, height := 480, isVertical := false, duration := 1000 } }

/-- The folder registration fails. -/
def demoWorldFolderFail : World :=
  { demoWorld with folderRes := .error (lit "folder denied") }

/-- Only the 1080p rendition requested. -/
def demoInputSel1080 : Input := { demoInput with qualities := .arr [lit "1080p"] }

/-- An output directory in which exactly the 240p and 720p quality
manifests exist (non-empty). -/
def demoMasterFs : FS :=
  [(playlistName (lit "vid") 240, lit "#EXTM3U"),
   (playlistName (lit "vid") 720, lit "#EXTM3U")]

/- ------------------------------------------------------------------
   Helper lemmas.
   ------------------------------------------------------------------ -/

theorem startsWithS_append_self (p r : Str) : startsWithS p (p ++ r) = true := by
  induction p with
  | nil => rfl
  | cons c cs ih => simp [startsWithS, ih]

theorem assocGet_mem {m : FS} {k v : Str} (h : assocGet m k = some v) : (k, v) ∈ m := by
  induction m with
  | nil => simp [assocGet] at h
  | cons p rest ih =>
    obtain ⟨k1, v1⟩ := p
    rw [assocGet] at h
    by_cases hk : k1 = k
    · simp only [hk] at h
      simp at h
      subst hk
      subst h
      exact List.mem_cons_self _ _
    · rw [if_neg hk] at h
      exact List.mem_cons_of_mem _ (ih h)

theorem assocGet_put_self (m : FS) (k v : Str) : assocGet (assocPut m k v) k = some v := by
  induction m with
  | nil => simp [assocPut, assocGet]
  | cons p rest ih =>
    obtain ⟨k1, v1⟩ := p
    by_cases hk : k1 = k
    · simp [assocPut, assocGet, hk]
    · simp only [assocPut, hk, if_false, if_neg hk]
      rw [assocGet, if_neg hk]
      exact ih

theorem assocGet_put_other {k k' : Str} (m : FS) (v : Str) (h : k' ≠ k) :
    assocGet (assocPut m k v) k' = assocGet m k' := by
  have h2 : ¬(k = k') := fun hh => h hh.symm
  induction m with
  | nil => simp [assocPut, assocGet, h2]
  | cons p rest ih =>
    obtain ⟨k1, v1⟩ := p
    by_cases hk : k1 = k
    · subst hk
      rw [assocPut, if_pos rfl, assocGet, if_neg h2]
      simp [assocGet, h2]
    · rw [assocPut, if_neg hk, assocGet, assocGet]
      by_cases hp : k1 = k'
      · rw [if_pos hp, if_pos hp]
      · rw [if_neg hp, if_neg hp]
        exact ih

theorem assocGet_filter_none {m : FS} {k : Str} (p : Str × Str → Bool)
    (h : assocGet m k = none) : assocGet (m.filter p) k = none := by
  induction m with
  | nil => simp [assocGet]
  | cons q rest ih =>
    rw [assocGet] at h
    by_cases hq : q.1 = k
    · rw [if_pos hq] at h
      exact absurd h (by simp)
    · rw [if_neg hq] at h
      by_cases hp : p q
      · simp [List.filter_cons, hp, assocGet, hq, ih h]
      · simp [List.filter_cons, hp, ih h]

theorem fsDelete_self (fs : FS) (n : Str) : assocGet (fsDelete fs n) n = none := by
  induction fs with
  | nil => simp [fsDelete, assocGet]
  | cons p rest ih =>
    by_cases hp : p.1 = n
    · simpa [fsDelete, List.filter_cons, hp] using ih
    · simpa [fsDelete, List.filter_cons, hp, assocGet] using ih

theorem cleanupLoop_none (w : World) (names : List Str) {fs : FS} {n : Str}
    (h : assocGet fs n = none) : assocGet (cleanupLoop w names fs) n = none := by
  induction names generalizing fs with
  | nil => simpa [cleanupLoop] using h
  | cons m rest ih =>
    rw [cleanupLoop]
    by_cases hd : w.deleteOk m
    · exact ih (by simpa [hd] using assocGet_filter_none _ h)
    · simpa [hd] using ih h

theorem cleanupLoop_deleted {w : World} {names : List Str} (fs : FS) {n : Str}
    (hmem : n ∈ names) (hdel : w.deleteOk n = true) :
    assocGet (cleanupLoop w names fs) n = none := by
  induction names generalizing fs with
  | nil => cases hmem
  | cons m rest ih =>
    rw [cleanupLoop]
    rcases List.mem_cons.mp hmem with rfl | hmem2
    · rw [hdel]
      exact cleanupLoop_none w rest (fsDelete_self fs n)
    · exact ih _ hmem2

theorem mem_fsNames_of_get {fs : FS} {k v : Str} (h : assocGet fs k = some v) :
    k ∈ fsNames fs := by
  have := assocGet_mem h
  exact List.mem_map.mpr ⟨(k, v), this, rfl⟩

/- ------------------------------------------------------------------
   C1: the quality planner never upscales.
   ------------------------------------------------------------------ -/

/-- C1: for every selection and probed source height, the planned
quality ladder never contains an id whose target height exceeds the
source height; the comparison is strict, so an id equal to the
source height (selected and in the catalog) is retained; and with
the full selection 240p-2160p at source height 1080 the plan is
exactly 240, 480, 720, 1080. -/
theorem claim1_plan_never_upscales (selNums : List Int) (h : Nat) :
    (∀ q ∈ planQualities selNums h, q ≤ h)
    ∧ (∀ q ∈ qualityCatalog, selNums.contains (Int.ofNat q) = true → q ≤ h →
        q ∈ planQualities selNums h)
    ∧ planQualities
        (selectedQualitiesNumbers (selectedTokens (QualitiesIn.arr
          [lit "240p", lit "480p", lit "720p", lit "1080p", lit "2160p"]))) 1080
        = [240, 480, 720, 1080] := by
  refine ⟨?_, ?_, by decide⟩
  · intro q hq
    rw [planQualities, List.mem_filter] at hq
    obtain ⟨hq1, hkeep⟩ := hq
    rw [List.mem_filter] at hq1
    obtain ⟨hcat, _⟩ := hq1
    have hcases : q = 240 ∨ q = 480 ∨ q = 720 ∨ q = 1080 ∨ q = 2160 := by
      simpa [qualityCatalog] using hcat
    rcases hcases with rfl | rfl | rfl | rfl | rfl <;>
      · rw [noUpscaleKeep] at hkeep
        simp [qualityHeights, List.lookup] at hkeep
        omega
  · intro q hcat hsel hle
    rw [planQualities, List.mem_filter]
    refine ⟨List.mem_filter.mpr ⟨hcat, hsel⟩, ?_⟩
    have hcases : q = 240 ∨ q = 480 ∨ q = 720 ∨ q = 1080 ∨ q = 2160 := by
      simpa [qualityCatalog] using hcat
    rcases hcases with rfl | rfl | rfl | rfl | rfl <;>
      · rw [noUpscaleKeep]
        simp [qualityHeights, List.lookup]
        omega

/-- Witness for C1 at a concrete input: 1080 is retained at source
height exactly 1080. -/
theorem claim1_witness :
    1080 ∈ planQualities [Int.ofNat 1080] 1080 :=
  (claim1_plan_never_upscales [Int.ofNat 1080] 1080).2.1 1080 (by decide) (by decide)
    (by decide)

/- ------------------------------------------------------------------
   C8: missing required input throws before any side effect.
   ------------------------------------------------------------------ -/

/-- C8: when the required `file` or `folder_id` input is missing the
handler throws (it does not return a typed error payload), and the
effect trace is empty: no filesystem, network, encoder or store
interaction has happened. -/
theorem claim8_validation_throws_first (inp : Input) (env : Env) (w : World)
    (hmiss : inp.file = none ∨ inp.folder_id = none) :
    runHandler inp env w = (Outcome.thrown msgInputFileMissing, [])
    ∨ runHandler inp env w = (Outcome.thrown msgFolderIdRequired, []) := by
  rcases hmiss with hf | hd
  · left
    simp [runHandler, validateInput, hf]
  · rcases hfile : inp.file with _ | fo
    · left
      simp [runHandler, validateInput, hfile]
    · right
      simp [runHandler, validateInput, hfile, hd]

/-- Witness for C8: a concrete input with no folder id. -/
theorem claim8_witness :
    runHandler { demoInput with folder_id := none } demoEnv demoWorld
        = (Outcome.thrown msgInputFileMissing, [])
    ∨ runHandler { demoInput with folder_id := none } demoEnv demoWorld
        = (Outcome.thrown msgFolderIdRequired, []) :=
  claim8_validation_throws_first _ demoEnv demoWorld (Or.inr rfl)

/- ------------------------------------------------------------------
   C6: the transcode idempotency guard.
   ------------------------------------------------------------------ -/

theorem encodeStep_ok_trace {w : World} {fname : Str} {q : Nat} {st st' : PState}
    (h : encodeStep w fname q st = Except.ok st') :
    st'.trace = st.trace ++ [Effect.encode q] := by
  simp only [encodeStep] at h
  split at h
  · simp at h
  · split at h
    · simp at h
    · split at h
      · simp at h
      · split at h
        · simp at h
        · injection h with h2
          subst h2
          rfl

theorem encodeLoop_ok_encodes {w : World} {fname : Str} {plan : List Nat}
    {st st' : PState} (h : encodeLoop w fname plan st = Except.ok st') :
    encodesOf st'.trace = encodesOf st.trace ++ plan := by
  induction plan generalizing st with
  | nil =>
    rw [encodeLoop] at h
    injection h with h2
    subst h2
    simp
  | cons q rest ih =>
    rw [encodeLoop] at h
    rcases hs : encodeStep w fname q st with e | stm
    · rw [hs] at h
      cases h
    · rw [hs] at h
      have htr := encodeStep_ok_trace hs
      have h2 := ih h
      rw [htr] at h2
      rw [h2]
      simp [encodesOf, List.filterMap_append]

/-- C6: when some existing file starts with the source base name and
contains a quality-suffix marker, the transcode step is skipped
entirely (the state, and so the encoder-invocation trace, is
unchanged); otherwise a completed transcode step has invoked the
encoder once per planned quality, in plan order. -/
theorem claim6_transcode_guard (w : World) (fname : Str) (plan : List Nat) (st : PState) :
    (hasTranscodedFiles (readFiles st.fs fname) = true →
      transcodeStage w fname plan st = Except.ok st)
    ∧ (hasTranscodedFiles (readFiles st.fs fname) = false →
       ∀ st', transcodeStage w fname plan st = Except.ok st' →
         encodesOf st'.trace = encodesOf st.trace ++ plan) := by
  constructor
  · intro hg
    rw [transcodeStage, if_pos hg]
  · intro hg st' h
    rw [transcodeStage, if_neg (by simp [hg])] at h
    exact encodeLoop_ok_encodes h

/-- Witness for C6: a directory holding `vid_240p.m3u8` makes the
guard skip the transcode. -/
theorem claim6_witness :
    transcodeStage demoWorld (lit "vid") [240, 480]
      { fs := [(lit "vid_240p.m3u8", lit "#EXTM3U")], trace := [],
        fileIdMap := [], uploadedFiles := [] }
      = Except.ok
      { fs := [(lit "vid_240p.m3u8", lit "#EXTM3U")], trace := [],
        fileIdMap := [], uploadedFiles := [] } :=
  (claim6_transcode_guard demoWorld (lit "vid") [240, 480] _).1 (by decide)

/- ------------------------------------------------------------------
   C7: geometry-probe failure is non-fatal.
   ------------------------------------------------------------------ -/

/-- C7: when the geometry probe fails the handler substitutes the
fallback metadata (an effectively infinite 99999x99999 resolution
and duration zero), under which the no-upscaling filter excludes
nothing, and the pipeline continues into the same planning and
transcoding continuation it uses for a successful probe. -/
theorem claim7_probe_failure_nonfatal (w : World) (e : Str)
    (hprobe : w.probe = Except.error e) :
    sourceMetadataOf w = fallbackMetadata
    ∧ fallbackMetadata
        = { width := 99999, height := 99999, isVertical := false, duration := 0 }
    ∧ (∀ selNums : List Int,
        planQualities selNums fallbackMetadata.height =
          qualityCatalog.filter (fun q => selNums.contains (Int.ofNat q)))
    ∧ (∀ inp fo fname isLocalTarget st,
        afterProbe inp w fo fname isLocalTarget (sourceMetadataOf w) st
          = afterProbe inp w fo fname isLocalTarget fallbackMetadata st) := by
  have h1 : sourceMetadataOf w = fallbackMetadata := by rw [sourceMetadataOf, hprobe]
  refine ⟨h1, rfl, ?_, fun inp fo fname ilt st => by rw [h1]⟩
  intro selNums
  rw [planQualities]
  apply List.filter_eq_self.mpr
  intro q hq
  have hcases : q = 240 ∨ q = 480 ∨ q = 720 ∨ q = 1080 ∨ q = 2160 := by
    simpa [qualityCatalog] using (List.mem_filter.mp hq).1
  rcases hcases with rfl | rfl | rfl | rfl | rfl <;> decide

/-- Witness for C7 at a concrete failing-probe world. -/
theorem claim7_witness :
    sourceMetadataOf demoWorldProbeFail = fallbackMetadata :=
  (claim7_probe_failure_nonfatal demoWorldProbeFail (lit "probe failed") rfl).1

/- ------------------------------------------------------------------
   C5: structure of the master manifest.
   ------------------------------------------------------------------ -/

theorem foldl_append_blocks (fs : FS) (fname : Str) (plan : List Nat) (init : List Str) :
    plan.foldl
      (fun acc q => if qualityFileValid fs fname q then acc ++ streamInfBlock fname q else acc)
      init
      = init ++ ((plan.filter (qualityFileValid fs fname)).map (streamInfBlock fname)).flatten := by
  induction plan generalizing init with
  | nil => simp
  | cons q rest ih =>
    rw [List.foldl_cons, List.filter_cons]
    by_cases hv : qualityFileValid fs fname q
    · rw [if_pos hv, ih]
      simp [hv]
    · rw [if_neg hv, ih]
      simp [hv]

theorem m3u8ContentLines_eq (fs : FS) (fname : Str) (plan : List Nat) :
    m3u8ContentLines fs fname plan =
      [lit "#EXTM3U", lit "#EXT-X-VERSION:3"] ++
        ((plan.filter (qualityFileValid fs fname)).map (streamInfBlock fname)).flatten := by
  rw [m3u8ContentLines, foldl_append_blocks]

theorem streamInfBlock_length {q : Nat} (h : q ∈ qualityCatalog) (fname : Str) :
    (streamInfBlock fname q).length = 2 := by
  have hcases : q = 240 ∨ q = 480 ∨ q = 720 ∨ q = 1080 ∨ q = 2160 := by
    simpa [qualityCatalog] using h
  rcases hcases with rfl | rfl | rfl | rfl | rfl <;> rfl

theorem planQualities_mem_catalog {selNums : List Int} {h q : Nat}
    (hq : q ∈ planQualities selNums h) : q ∈ qualityCatalog :=
  (List.mem_filter.mp (List.mem_filter.mp hq).1).1

/-- C5: the master manifest is the fixed two-line header followed by
one bandwidth/resolution directive and one manifest reference per
planned quality whose manifest file exists and is non-empty, in plan
(catalog) order; it degenerates to the bare header exactly when no
planned quality is valid, in which case the pipeline returns the
typed error instead of publishing; with only 240p and 720p valid the
manifest holds exactly those two `STREAM-INF` blocks. -/
theorem claim5_master_manifest (fs : FS) (fname : Str) (plan : List Nat)
    (hplan : ∀ q ∈ plan, q ∈ qualityCatalog) :
    (m3u8ContentLines fs fname plan =
      [lit "#EXTM3U", lit "#EXT-X-VERSION:3"] ++
        ((plan.filter (qualityFileValid fs fname)).map (streamInfBlock fname)).flatten)
    ∧ ((m3u8ContentLines fs fname plan).length ≤ 2 ↔
        plan.filter (qualityFileValid fs fname) = [])
    ∧ (∀ inp w fo ilt md st st1,
        planQualities (selectedQualitiesNumbers (selectedTokens inp.qualities)) md.height
          = plan →
        plan ≠ [] →
        transcodeStage w fname plan st = Except.ok st1 →
        st1.fs = fs →
        plan.filter (qualityFileValid fs fname) = [] →
        afterProbe inp w fo fname ilt md st
          = (Outcome.errorResult msgNoValidQuality, st1.trace))
    ∧ m3u8ContentLines demoMasterFs (lit "vid") [240, 480, 720, 1080] =
        [lit "#EXTM3U", lit "#EXT-X-VERSION:3",
         lit "#EXT-X-STREAM-INF:BANDWIDTH=400000,RESOLUTION=426x240",
         lit "vid_240p.m3u8",
         lit "#EXT-X-STREAM-INF:BANDWIDTH=2800000,RESOLUTION=1280x720",
         lit "vid_720p.m3u8"]
    ∧ countStreamInf (m3u8ContentLines demoMasterFs (lit "vid") [240, 480, 720, 1080]) = 2
    := by
  have hiff : (m3u8ContentLines fs fname plan).length ≤ 2 ↔
      plan.filter (qualityFileValid fs fname) = [] := by
    constructor
    · intro hle
      rcases hfil : plan.filter (qualityFileValid fs fname) with _ | ⟨q, rest⟩
      · rfl
      · exfalso
        have hq : q ∈ plan.filter (qualityFileValid fs fname) := by
          rw [hfil]
          exact List.mem_cons_self _ _
        have hqc := hplan q (List.mem_filter.mp hq).1
        rw [m3u8ContentLines_eq, hfil] at hle
        rw [List.map_cons, List.flatten_cons] at hle
        simp only [List.length_append, List.length_cons, List.length_nil] at hle
        rw [streamInfBlock_length hqc] at hle
        omega
    · intro hfil
      rw [m3u8ContentLines_eq, hfil]
      simp
  refine ⟨m3u8ContentLines_eq fs fname plan, hiff, ?_, by decide, by decide⟩
  intro inp w fo ilt md st st1 hplaneq hne htr hfs hfil
  have hlen : (m3u8ContentLines st1.fs fname plan).length ≤ 2 := by
    rw [hfs]
    exact hiff.mpr hfil
  simp only [afterProbe, hplaneq]
  rw [if_neg (by simp [hne])]
  rw [htr]
  simp [hlen]

/-- Witness for C5 at concrete arguments. -/
theorem claim5_witness :
    (m3u8ContentLines demoMasterFs (lit "vid") [240]).length ≤ 2 ↔
      List.filter (qualityFileValid demoMasterFs (lit "vid")) [240] = [] :=
  (claim5_master_manifest demoMasterFs (lit "vid") [240] (by decide)).2.1

/- ------------------------------------------------------------------
   C3: the playlist rewriter is idempotent and drops no line.
   ------------------------------------------------------------------ -/

theorem dropWhile_eq_self_of_all {p : Char → Bool} {l : Str}
    (h : ∀ c ∈ l, p c = false) : l.dropWhile p = l := by
  cases l with
  | nil => rfl
  | cons c cs =>
    rw [List.dropWhile_cons, h c (List.mem_cons_self c cs)]
    simp

theorem trimS_eq_self_of_no_ws {s : Str} (h : ∀ c ∈ s, isWs c = false) : trimS s = s := by
  rw [trimS, dropWhile_eq_self_of_all h,
    dropWhile_eq_self_of_all (fun c hc => h c (List.mem_reverse.mp hc))]
  exact List.reverse_reverse s

theorem mem_of_mem_dropWhile {p : Char → Bool} {c : Char} :
    ∀ {l : Str}, c ∈ l.dropWhile p → c ∈ l := by
  intro l h
  induction l with
  | nil => simp at h
  | cons d ds ih =>
    rw [List.dropWhile_cons] at h
    by_cases hd : p d = true
    · rw [if_pos hd] at h
      exact List.mem_cons_of_mem _ (ih h)
    · rw [if_neg hd] at h
      exact h

theorem mem_of_mem_trimS {c : Char} {s : Str} (h : c ∈ trimS s) : c ∈ s := by
  rw [trimS, List.mem_reverse] at h
  have h2 := mem_of_mem_dropWhile h
  rw [List.mem_reverse] at h2
  exact mem_of_mem_dropWhile h2

theorem mem_of_mem_tokenOf {c : Char} {l : Str} (h : c ∈ tokenOf l) : c ∈ l := by
  simp only [tokenOf] at h
  have h2 := mem_of_mem_trimS h
  by_cases hp : startsWithS (lit "/assets/") (trimS l) = true
  · rw [if_pos hp] at h2
    exact mem_of_mem_trimS ((List.drop_sublist 8 _).subset h2)
  · rw [if_neg hp] at h2
    exact mem_of_mem_trimS h2

theorem uuidChars_mem {i : Nat} {s : Str} (h : uuidChars i s = true) :
    ∀ c ∈ s, isHexDig c = true ∨ c = '-' := by
  induction s generalizing i with
  | nil => intro c hc; cases hc
  | cons d ds ih =>
    rw [uuidChars, Bool.and_eq_true] at h
    intro c hc
    rcases List.mem_cons.mp hc with rfl | hc2
    · have h1 := h.1
      by_cases hcond : (i = 8 || i = 13 || i = 18 || i = 23) = true
      · rw [if_pos hcond] at h1
        exact Or.inr (of_decide_eq_true h1)
      · rw [if_neg hcond] at h1
        exact Or.inl h1
    · exact ih h.2 c hc2

theorem ws_not_hex {c : Char} (h : isWs c = true) : isHexDig c = false := by
  rw [isWs] at h
  simp only [Bool.or_eq_true, decide_eq_true_eq] at h
  rcases h with (((((rfl | rfl) | rfl) | rfl) | rfl) | rfl) <;> decide

theorem uuid_no_ws {s : Str} (h : uuidShape s = true) : ∀ c ∈ s, isWs c = false := by
  rw [uuidShape, Bool.and_eq_true] at h
  intro c hc
  rcases uuidChars_mem h.2 c hc with hh | rfl
  · by_cases hw : isWs c = true
    · rw [ws_not_hex hw] at hh
      cases hh
    · exact Bool.eq_false_iff.mpr hw
  · decide

theorem uuid_head {s : Str} (h : uuidShape s = true) :
    ∃ c rest, s = c :: rest ∧ isHexDig c = true := by
  rw [uuidShape, Bool.and_eq_true] at h
  obtain ⟨hlen, hchars⟩ := h
  cases s with
  | nil => simp at hlen
  | cons c rest =>
    refine ⟨c, rest, rfl, ?_⟩
    rw [uuidChars, Bool.and_eq_true] at hchars
    have h1 := hchars.1
    rw [if_neg (by decide)] at h1
    exact h1

theorem uuid_trimS {s : Str} (h : uuidShape s = true) : trimS s = s :=
  trimS_eq_self_of_no_ws (uuid_no_ws h)

theorem uuid_not_comment {s : Str} (h : uuidShape s = true) :
    startsWithS (lit "#") s = false := by
  obtain ⟨c, rest, rfl, hhex⟩ := uuid_head h
  have hne : ¬('#' = c) := by
    intro hh
    rw [← hh] at hhex
    cases hhex
  show startsWithS ['#'] (c :: rest) = false
  rw [startsWithS]
  simp [hne]

theorem uuid_not_assets {s : Str} (h : uuidShape s = true) :
    startsWithS (lit "/assets/") s = false := by
  obtain ⟨c, rest, rfl, hhex⟩ := uuid_head h
  have hne : ¬('/' = c) := by
    intro hh
    rw [← hh] at hhex
    cases hhex
  rw [show lit "/assets/" = '/' :: lit "assets/" from rfl]
  rw [startsWithS]
  simp [hne]

theorem uuid_tokenOf {s : Str} (h : uuidShape s = true) : tokenOf s = s := by
  simp only [tokenOf]
  rw [uuid_trimS h]
  rw [if_neg (by simp [uuid_not_assets h])]
  exact uuid_trimS h

theorem uuid_trim_not_empty {s : Str} (h : uuidShape s = true) :
    (trimS s).isEmpty = false := by
  rw [uuid_trimS h]
  obtain ⟨c, rest, rfl, _⟩ := uuid_head h
  rfl

theorem rewriteLine_uuid_fix {map : FS} {s : Str} (h : uuidShape s = true) :
    rewriteLine map false s = s := by
  simp only [rewriteLine]
  rw [if_neg (by simp [uuid_not_comment h, uuid_trim_not_empty h])]
  rw [uuid_tokenOf h]
  rw [if_pos (by simp [h])]

theorem jsGet_val {map : FS} {k v : Str} (h : jsGet map k = some v) :
    ∃ kk, (kk, v) ∈ map := by
  rw [jsGet] at h
  split at h
  · rename_i u heq
    split at h
    · cases h
    · injection h with h2
      subst h2
      exact ⟨k, assocGet_mem heq⟩
  · cases h

theorem lookupFileId_val {map : FS} {a b v : Str}
    (h : lookupFileId map a b = some v) : ∃ kk, (kk, v) ∈ map := by
  rw [lookupFileId] at h
  rcases h1 : jsGet map a with _ | v1 <;> rw [h1] at h
  · rcases h2 : jsGet map b with _ | v2 <;> rw [h2] at h
    · rcases h3 : jsGet map (trimS a) with _ | v3 <;> rw [h3] at h
      · exact jsGet_val h
      · injection h with hh
        subst hh
        exact jsGet_val h3
    · injection h with hh
      subst hh
      exact jsGet_val h2
  · injection h with hh
    subst hh
    exact jsGet_val h1

/-- The three possible outcomes of one identifier-mode line rewrite:
the line unchanged, the extracted token (when it is already an
identifier), or a value of the map. -/
theorem rewriteLine_cases (map : FS) (l : Str) :
    rewriteLine map false l = l
    ∨ (rewriteLine map false l = tokenOf l ∧ uuidShape (tokenOf l) = true)
    ∨ (∃ fid kk, (kk, fid) ∈ map ∧ rewriteLine map false l = fid) := by
  by_cases h1 : (startsWithS (lit "#") l || (trimS l).isEmpty) = true
  · left
    simp only [rewriteLine]
    rw [if_pos h1]
  · by_cases h2 : uuidShape (tokenOf l) = true
    · right
      left
      refine ⟨?_, h2⟩
      simp only [rewriteLine]
      rw [if_neg h1, if_pos (by simp [h2])]
    · have hb : uuidShape (tokenOf l) = false := Bool.eq_false_iff.mpr h2
      rcases h3 : lookupFileId map (tokenOf l) (basenameS (tokenOf l)) with _ | fid
      · left
        simp only [rewriteLine]
        rw [if_neg h1, if_neg (by simp [hb]), h3]
      · right
        right
        obtain ⟨kk, hmem⟩ := lookupFileId_val h3
        refine ⟨fid, kk, hmem, ?_⟩
        simp only [rewriteLine]
        rw [if_neg h1, if_neg (by simp [hb]), h3]
        rfl

theorem rewriteLine_idem (map : FS) (hvals : ∀ p ∈ map, uuidShape p.2 = true)
    (l : Str) :
    rewriteLine map false (rewriteLine map false l) = rewriteLine map false l := by
  rcases rewriteLine_cases map l with hl | ⟨hl, h2⟩ | ⟨fid, kk, hmem, hl⟩
  · rw [hl, hl]
  · rw [hl, rewriteLine_uuid_fix h2]
  · rw [hl, rewriteLine_uuid_fix (hvals (kk, fid) hmem)]

theorem rewriteLine_no_nl {map : FS} (hvals : ∀ p ∈ map, uuidShape p.2 = true)
    {l : Str} (hl : '\n' ∉ l) : '\n' ∉ rewriteLine map false l := by
  rcases rewriteLine_cases map l with he | ⟨he, h2⟩ | ⟨fid, kk, hmem, he⟩
  · rw [he]
    exact hl
  · rw [he]
    intro hmem
    exact hl (mem_of_mem_tokenOf hmem)
  · rw [he]
    intro hmem2
    have hw := uuid_no_ws (hvals (kk, fid) hmem) '\n' hmem2
    rw [show isWs '\n' = true from rfl] at hw
    cases hw

theorem split_ne_nil (sep : Char) (s : Str) : splitOnCharS sep s ≠ [] := by
  cases s with
  | nil => simp [splitOnCharS]
  | cons c rest =>
    rw [splitOnCharS]
    rcases hs : splitOnCharS sep rest with _ | ⟨h1, t1⟩
    · simp
    · by_cases hc : c = sep <;> simp [hc]

theorem mem_split_no_sep {sep : Char} :
    ∀ (s : Str), ∀ l ∈ splitOnCharS sep s, sep ∉ l := by
  intro s
  induction s with
  | nil =>
    intro l hl
    simp [splitOnCharS] at hl
    subst hl
    simp
  | cons c rest ih =>
    intro l hl
    rcases hs : splitOnCharS sep rest with _ | ⟨h1, t1⟩
    · exact absurd hs (split_ne_nil sep rest)
    · simp only [splitOnCharS, hs] at hl
      by_cases hc : c = sep
      · rw [if_pos hc] at hl
        rcases List.mem_cons.mp hl with rfl | hl2
        · simp
        · exact ih l (by rw [hs]; exact hl2)
      · rw [if_neg hc] at hl
        rcases List.mem_cons.mp hl with rfl | hl2
        · intro hmem
          rcases List.mem_cons.mp hmem with rfl | hm2
          · exact hc rfl
          · exact ih h1 (by rw [hs]; exact List.mem_cons_self _ _) hm2
        · exact ih l (by rw [hs]; exact List.mem_cons_of_mem _ hl2)

theorem split_no_sep_single {sep : Char} {s : Str} (h : sep ∉ s) :
    splitOnCharS sep s = [s] := by
  induction s with
  | nil => rfl
  | cons c rest ih =>
    have hc : ¬(c = sep) := fun hh => h (by rw [hh]; exact List.mem_cons_self _ _)
    simp only [splitOnCharS, ih (fun hm => h (List.mem_cons_of_mem _ hm))]
    rw [if_neg hc]

theorem split_append_sep {sep : Char} {l : Str} (h : sep ∉ l) (t : Str) :
    splitOnCharS sep (l ++ sep :: t) = l :: splitOnCharS sep t := by
  induction l with
  | nil =>
    rcases hs : splitOnCharS sep t with _ | ⟨h1, t1⟩
    · exact absurd hs (split_ne_nil sep t)
    · simp only [List.nil_append, splitOnCharS, hs]
      simp
  | cons c rest ih =>
    have hc : ¬(c = sep) := fun hh => h (by rw [hh]; exact List.mem_cons_self _ _)
    rw [List.cons_append, splitOnCharS, ih (fun hm => h (List.mem_cons_of_mem _ hm))]
    simp [hc]

theorem splitNl_joinNl :
    ∀ (ls : List Str), ls ≠ [] → (∀ l ∈ ls, '\n' ∉ l) → splitNl (joinNl ls) = ls := by
  intro ls
  induction ls with
  | nil => intro h; cases h rfl
  | cons l rest ih =>
    intro _ hnl
    cases rest with
    | nil =>
      show splitNl (joinNl [l]) = [l]
      rw [joinNl, splitNl]
      exact split_no_sep_single (hnl l (List.mem_cons_self _ _))
    | cons l2 rest2 =>
      have hne2 : l2 :: rest2 ≠ [] := by simp
      have ih2 := ih hne2 (fun x hx => hnl x (List.mem_cons_of_mem _ hx))
      rw [joinNl, splitNl, split_append_sep (hnl l (List.mem_cons_self _ _))]
      rw [show splitOnCharS '\n' (joinNl (l2 :: rest2)) = splitNl (joinNl (l2 :: rest2)) from rfl]
      rw [ih2]
      exact hne2

theorem map_fix {f : Str → Str} :
    ∀ {xs : List Str}, (∀ x ∈ xs, f x = x) → xs.map f = xs := by
  intro xs
  induction xs with
  | nil => intro _; rfl
  | cons a l ih =>
    intro h
    rw [List.map_cons, h a (List.mem_cons_self _ _),
      ih (fun x hx => h x (List.mem_cons_of_mem _ hx))]

/-- C3: in identifier mode, when the identifier map carries
identifier-shaped values (as the store's ids are), rewriting an
already-rewritten manifest is the identity on the bytes; the rewrite
maps lines one-to-one (no line is ever dropped); and a non-comment,
non-blank line whose token is neither an identifier already nor
found in the map is emitted unchanged. -/
theorem claim3_rewriter_idempotent (map : FS)
    (hvals : ∀ p ∈ map, uuidShape p.2 = true) :
    (∀ content : Str,
      rebuildPlaylistContent map false (rebuildPlaylistContent map false content)
        = rebuildPlaylistContent map false content)
    ∧ (∀ (ufd : Bool) (lines : List Str),
        (rebuildPlaylistLines map ufd lines).length = lines.length)
    ∧ (∀ (ufd : Bool) (line : Str),
        startsWithS (lit "#") line = false → (trimS line).isEmpty = false →
        uuidShape (tokenOf line) = false →
        lookupFileId map (tokenOf line) (basenameS (tokenOf line)) = none →
        rewriteLine map ufd line = line) := by
  refine ⟨?_, fun ufd lines => List.length_map _ _, ?_⟩
  · intro content
    show rebuildPlaylistContent map false
        (joinNl ((splitNl content).map (rewriteLine map false)))
      = joinNl ((splitNl content).map (rewriteLine map false))
    rw [rebuildPlaylistContent, rebuildPlaylistLines]
    have hne : (splitNl content).map (rewriteLine map false) ≠ [] := by
      intro hh
      exact split_ne_nil '\n' content (List.map_eq_nil_iff.mp hh)
    have hnl : ∀ l ∈ (splitNl content).map (rewriteLine map false), '\n' ∉ l := by
      intro l hlm
      obtain ⟨l0, hl0, rfl⟩ := List.mem_map.mp hlm
      exact rewriteLine_no_nl hvals (mem_split_no_sep content l0 hl0)
    rw [splitNl_joinNl _ hne hnl]
    congr 1
    apply map_fix
    intro x hx
    obtain ⟨l0, hl0, rfl⟩ := List.mem_map.mp hx
    exact rewriteLine_idem map hvals l0
  · intro ufd line hc ht hu hl
    simp only [rewriteLine]
    rw [if_neg (by simp [hc, ht])]
    rw [if_neg (by simp [hu])]
    rw [hl]

/-- Witness for C3: a concrete one-entry map with an
identifier-shaped value and a concrete two-line manifest. -/
theorem claim3_witness :
    rebuildPlaylistContent [(lit "seg0.ts", demoId)] false
        (rebuildPlaylistContent [(lit "seg0.ts", demoId)] false
          (lit "#EXTM3U" ++ ['\n'] ++ lit "seg0.ts"))
      = rebuildPlaylistContent [(lit "seg0.ts", demoId)] false
          (lit "#EXTM3U" ++ ['\n'] ++ lit "seg0.ts") :=
  (claim3_rewriter_idempotent [(lit "seg0.ts", demoId)] (by decide)).1 _

/- ------------------------------------------------------------------
   C4: empty plan ends the job with the typed error (whose text is
   not the one the claim quotes) and no encoder invocation.
   ------------------------------------------------------------------ -/

/-- C4 counterexample: with selection 1080p and a 480p source the
plan is empty and the handler returns the typed error payload, but
its message is `No quality levels selected for transcoding`, not the
`no quality levels selected` the claim states; the trace shows no
encoder invocation. -/
theorem claim4_counterexample :
    (runHandler demoInputSel1080 demoEnv demoWorld480).1
        = Outcome.errorResult msgNoQualityLevels
    ∧ msgNoQualityLevels ≠ lit "no quality levels selected"
    ∧ (runHandler demoInputSel1080 demoEnv demoWorld480).2
        = [Effect.ffmpegCheck, Effect.pixFmtProbe, Effect.geometryProbe] := by
  refine ⟨by decide, by decide, by decide⟩

theorem acquireSource_trace {env : Env} {w : World} {fo : FileObj} {stA : PState}
    (hacq : acquireSource env w fo = Except.ok stA) :
    stA.trace = [] ∨ stA.trace = [Effect.download] := by
  simp only [acquireSource] at hacq
  split at hacq
  · split at hacq
    · cases hacq
    · split at hacq
      · cases hacq
      · injection hacq with h2
        subst h2
        left
        rfl
  · split at hacq
    · cases hacq
    · injection hacq with h2
      subst h2
      right
      rfl

/-- C4 amended: for every job that reaches the planning step with an
empty computed plan, the handler returns the typed error
`No quality levels selected for transcoding` (it does not throw),
and the encoder is never invoked in the whole run. -/
theorem claim4_empty_plan_typed_error (inp : Input) (env : Env) (w : World)
    (fo : FileObj) (tgt : Str) (stA : PState)
    (hval : validateInput inp = Except.ok fo)
    (htgt : resolveTargetAdapter inp env fo = Except.ok tgt)
    (hacq : acquireSource env w fo = Except.ok stA)
    (hdir : outputDirOk env tgt = true)
    (hff : w.ffmpegOk = true)
    (hplan : planQualities (selectedQualitiesNumbers (selectedTokens inp.qualities))
        (sourceMetadataOf w).height = []) :
    (runHandler inp env w).1 = Outcome.errorResult msgNoQualityLevels
    ∧ ∀ q, Effect.encode q ∉ (runHandler inp env w).2 := by
  have hrun : runHandler inp env w = (Outcome.errorResult msgNoQualityLevels,
      (stA.trace ++ [Effect.ffmpegCheck]) ++ [Effect.pixFmtProbe, Effect.geometryProbe]) := by
    simp only [runHandler, hval, runTargeted, hacq, hdir, hff, afterProbe, hplan, htgt,
      Bool.not_true, List.isEmpty_nil, if_true, Bool.false_eq_true, if_false]
  rw [hrun]
  refine ⟨rfl, ?_⟩
  intro q hmem
  rcases acquireSource_trace hacq with h0 | h0 <;> rw [h0] at hmem <;> simp at hmem

/-- Witness for C4's amended theorem at a concrete empty-plan job. -/
theorem claim4_witness :
    (runHandler demoInputSel1080 demoEnv demoWorld480).1
      = Outcome.errorResult msgNoQualityLevels :=
  (claim4_empty_plan_typed_error demoInputSel1080 demoEnv demoWorld480
    { filename_disk := lit "vid.mp4", storage := lit "local" } (lit "local")
    (initState demoWorld480) rfl rfl rfl (by decide) rfl (by decide)).1

/- ------------------------------------------------------------------
   C2: which store-registration failures abort the job.
   ------------------------------------------------------------------ -/

/-- C2 counterexample: a world in which every store registration
fails (master manifest, quality manifests, segments, thumbnail)
still ends in a success outcome, with a null master id — so a
failure while publishing the master or a quality manifest is not
fatal, contrary to the claim. -/
theorem claim2_counterexample :
    demoWorldUploadsFail.uploadRes (masterName (lit "vid"))
        = Except.error (lit "store down")
    ∧ demoWorldUploadsFail.uploadRes (playlistName (lit "vid") 240)
        = Except.error (lit "store down")
    ∧ (runHandler demoInput demoEnv demoWorldUploadsFail).1.isSuccess = true
    ∧ Outcome.masterIdOf (runHandler demoInput demoEnv demoWorldUploadsFail).1
        = some none := by
  refine ⟨rfl, rfl, by decide, by decide⟩

/-- C2 amended: a store-registration failure is fatal only when it
occurs while securing the target folder (the rejection propagates as
a thrown error); failures while publishing the master manifest, a
quality manifest, an individual segment, or the thumbnail are logged
and skipped, and the job still returns a success record (with a null
master id, a null thumbnail and no registered files when every
registration failed). -/
theorem claim2_store_failure_fatality (w : World) (e : Str)
    (hf : w.folderRes = Except.error e) :
    (∀ inp fo fname ilt md plan st,
      folderAndPublish inp w fo fname ilt md plan st
        = (Outcome.thrown e, st.trace ++ [Effect.folderEnsure]))
    ∧ (runHandler demoInput demoEnv demoWorldUploadsFail).1.isSuccess = true
    ∧ Outcome.masterIdOf (runHandler demoInput demoEnv demoWorldUploadsFail).1
        = some none
    ∧ Outcome.thumbOf (runHandler demoInput demoEnv demoWorldUploadsFail).1
        = some none
    ∧ Outcome.filesOf (runHandler demoInput demoEnv demoWorldUploadsFail).1
        = some [] := by
  refine ⟨?_, by decide, by decide, by decide, by decide⟩
  intro inp fo fname ilt md plan st
  simp only [folderAndPublish, hf]

/-- Witness for C2's amended theorem: a concrete folder failure
aborts the publish phase with the thrown error. -/
theorem claim2_witness :
    folderAndPublish demoInput demoWorldFolderFail
        { filename_disk := lit "vid.mp4", storage := lit "local" } (lit "vid") true
        fallbackMetadata [240] (initState demoWorldFolderFail)
      = (Outcome.thrown (lit "folder denied"),
         (initState demoWorldFolderFail).trace ++ [Effect.folderEnsure]) :=
  (claim2_store_failure_fatality demoWorldFolderFail (lit "folder denied") rfl).1
    demoInput _ _ _ _ _ _

/- ------------------------------------------------------------------
   C9: remote-target cleanup empties availableQualities.
   ------------------------------------------------------------------ -/

theorem startsWith_playlistName (fname : Str) (q : Nat) :
    startsWithS fname (playlistName fname q) = true := by
  rw [playlistName]
  have hassoc : fname ++ lit "_" ++ lit (toString q) ++ lit "p.m3u8"
      = fname ++ (lit "_" ++ (lit (toString q) ++ lit "p.m3u8")) := by
    simp [List.append_assoc]
  rw [hassoc]
  exact startsWithS_append_self _ _

/-- C9: with a non-local target, when the per-file deletions of the
cleanup pass succeed on the quality manifests (and none of them is
the original source file, which the loop skips), the success record
assembled afterwards carries an empty `availableQualities`, because
the availability scan runs on the cleaned directory; the concrete
remote-target demo run shows the same end to end. -/
theorem claim9_remote_cleanup_empties_avail (w : World) (fname fdisk : Str)
    (md : VideoMetadata) (plan : List Nat) (mid tid : Option Str) (st : PState)
    (hdel : ∀ q ∈ plan, w.deleteOk (playlistName fname q) = true)
    (hsrc : ∀ q ∈ plan, playlistName fname q ≠ fdisk) :
    Outcome.availOf (finishStage w false fname fdisk md plan mid tid st).1 = some []
    ∧ Outcome.availOf (runHandler demoRemoteInput demoRemoteEnv demoWorld).1
        = some [] := by
  refine ⟨?_, by decide⟩
  have hkey : ∀ names : List Str,
      (∀ q ∈ plan, (∃ c, assocGet st.fs (playlistName fname q) = some c) →
        playlistName fname q ∈ names) →
      availableQualitiesOf (cleanupLoop w names st.fs) fname plan = [] := by
    intro names hmem
    rw [availableQualitiesOf, List.filter_eq_nil_iff]
    intro q hq
    rcases hg : assocGet st.fs (playlistName fname q) with _ | c
    · have hnone := cleanupLoop_none w names hg
      simp [fsExists, hnone]
    · have hnone := cleanupLoop_deleted st.fs (hmem q hq ⟨c, hg⟩) (hdel q hq)
      simp [fsExists, hnone]
  simp only [finishStage, cleanupStage, Bool.false_eq_true, if_false, Outcome.availOf]
  congr 1
  apply hkey
  intro q hq hc
  obtain ⟨c, hg⟩ := hc
  apply List.mem_filter.mpr
  constructor
  · rw [readFiles]
    exact List.mem_filter.mpr ⟨mem_fsNames_of_get hg, startsWith_playlistName fname q⟩
  · simp [hsrc q hq]

/-- Witness for C9 at a concrete stage state holding one quality
manifest. -/
theorem claim9_witness :
    Outcome.availOf (finishStage demoWorld false (lit "vid") (lit "vid.mp4")
        fallbackMetadata [240] none none
        { fs := [(playlistName (lit "vid") 240, lit "#EXTM3U")], trace := [],
          fileIdMap := [], uploadedFiles := [] }).1 = some [] :=
  (claim9_remote_cleanup_empties_avail demoWorld (lit "vid") (lit "vid.mp4")
    fallbackMetadata [240] none none _ (by decide) (by decide)).1

/- ------------------------------------------------------------------
   C10: thumbnail extraction failure.
   ------------------------------------------------------------------ -/

/-- C10 counterexample: extraction reports failure but a non-empty
thumbnail file is on disk, and the handler uploads it anyway — the
success result carries that id, not null, and the trace shows the
thumbnail upload that the claim says is skipped. -/
theorem claim10_counterexample :
    demoWorldThumbOrphan.thumbQuery = none
    ∧ demoWorldThumbOrphan.thumbExecOk = false
    ∧ Outcome.thumbOf (runHandler demoInput demoEnv demoWorldThumbOrphan).1
        = some (some demoId)
    ∧ Effect.upload (thumbNameOf (lit "vid"))
        ∈ (runHandler demoInput demoEnv demoWorldThumbOrphan).2 := by
  refine ⟨rfl, rfl, by decide, by decide⟩

/-- C10 amended: when no thumbnail id is found in the store and the
extraction attempt leaves no usable file (it wrote an empty file, or
wrote nothing and none existed), the thumbnail id stays null and the
thumbnail phase performs no upload (its trace gains only the store
query and the extraction attempt); the phase is total, so extraction
failure cannot abort the job, and the concrete failing-extraction
run still returns a success result with a null thumbnail. -/
theorem claim10_thumbnail_failure (w : World) (fname : Str) (st : PState)
    (hq : w.thumbQuery = none) :
    (w.thumbWrite = some [] →
        (thumbStage w fname st).2 = none
        ∧ (thumbStage w fname st).1.trace
            = st.trace ++ [Effect.thumbQuery] ++ [Effect.thumbExtract])
    ∧ (w.thumbWrite = none → assocGet st.fs (thumbNameOf fname) = none →
        (thumbStage w fname st).2 = none
        ∧ (thumbStage w fname st).1.trace
            = st.trace ++ [Effect.thumbQuery] ++ [Effect.thumbExtract])
    ∧ Outcome.thumbOf (runHandler demoInput demoEnv demoWorldNoThumb).1 = some none
    ∧ (runHandler demoInput demoEnv demoWorldNoThumb).1.isSuccess = true := by
  refine ⟨?_, ?_, by decide, by decide⟩
  · intro hw
    simp only [thumbStage, hq, hw]
    rw [assocGet_put_self]
    exact ⟨rfl, by simp⟩
  · intro hw hfs
    simp only [thumbStage, hq, hw]
    rw [hfs]
    exact ⟨rfl, by simp⟩

/-- Witness for C10's amended theorem at the concrete
failing-extraction world. -/
theorem claim10_witness :
    (thumbStage demoWorldNoThumb (lit "vid") (initState demoWorldNoThumb)).2 = none
    ∧ (thumbStage demoWorldNoThumb (lit "vid") (initState demoWorldNoThumb)).1.trace
        = (initState demoWorldNoThumb).trace
            ++ [Effect.thumbQuery] ++ [Effect.thumbExtract] :=
  (claim10_thumbnail_failure demoWorldNoThumb (lit "vid")
    (initState demoWorldNoThumb) rfl).2.1 rfl rfl

end Transcode
